import Mathlib

/-!
# Verification of the data-reconciliation pipeline of `src/app.py`

Shallow embedding of the `transfer` route of `src/app.py` (lines 48–89):
key-column renaming and normalization, common-key filtering, and a full
outer join on the shared key column `"comum"`.  The surrounding
Flask/Excel I/O layers (upload parsing, spreadsheet serialization) are
out of scope; the core operates on abstract row-sets.
-/

set_option autoImplicit false

namespace App

/-- Python `str.strip()` on the character list: drop leading and trailing
whitespace. -/
def pyStrip (l : List Char) : List Char :=
  ((l.dropWhile Char.isWhitespace).reverse.dropWhile Char.isWhitespace).reverse

/-- Python `str.upper()` on the character list (ASCII case mapping). -/
def pyUpper (l : List Char) : List Char := l.map Char.toUpper

/-- A spreadsheet cell: a string, an integer, or null (pandas `NaN`). -/
inductive Cell where
  | str (s : String)
  | num (n : Int)
  | null
deriving DecidableEq

/-- The string form a cell takes under pandas `astype(str)`;
a null cell (`NaN`) renders as the literal string `"nan"`. -/
def cellToString : Cell → String
  | .str s => s
  | .num n => toString n
  | .null => "nan"

/-- The per-value cleaning of lines 56–57: `.str.strip().str.upper()`. -/
def normalizeStr (s : String) : String := ⟨pyUpper (pyStrip s.data)⟩

/-- The whole per-cell cleaning of lines 56–57:
`astype(str).str.strip().str.upper()`, always yielding a string cell. -/
def normalizeCell (c : Cell) : Cell := .str (normalizeStr (cellToString c))

/-- Whether a cell is null (`NaN`), as tested by pandas `dropna`. -/
def Cell.isNull : Cell → Bool
  | .null => true
  | _ => false

/-- A pandas `DataFrame`: an ordered list of column names and an ordered
list of rows, each row the list of its cells in column order.  pandas
permits duplicate column names, so `cols` is a plain list. -/
structure DataFrame where
  cols : List String
  rows : List (List Cell)
deriving DecidableEq

/-- Well-formedness: every row has one cell per column. -/
def DataFrame.WF (df : DataFrame) : Prop := ∀ r ∈ df.rows, r.length = df.cols.length

/-- How the pipeline can fail.  `missingColumn` abstracts both the
`KeyError` raised by `df['comum']` at line 56 when no column is named
`comum` after the rename, and the explicit check at lines 61–63;
`duplicateKeyColumn` abstracts the `AttributeError` raised at line 56
when the rename leaves two columns named `comum` (column selection then
yields a `DataFrame`, which has no `.str` accessor); `emptyResult` is
the check at lines 83–85. -/
inductive ReconcileError where
  | missingColumn
  | duplicateKeyColumn
  | emptyResult
deriving DecidableEq

/-- Pandas `df.rename` with the single mapping `old` to `new`, on the
column list (lines 48–49): every occurrence of `old` is renamed and
other names are left alone. -/
def renameCols (old new : String) (cols : List String) : List String :=
  cols.map (fun c => if c = old then new else c)

/-- One row after the column assignment `df['comum'] = df['comum'].astype(str)
.str.strip().str.upper()` (lines 56–57): the cell paired with the (unique)
column named `comum` is cleaned, every other cell is untouched. -/
def normRow (cols : List String) (row : List Cell) : List Cell :=
  List.zipWith (fun c v => if c = "comum" then normalizeCell v else v) cols row

/-- Lines 48+56 (resp. 49+57) of `src/app.py` applied to one frame:
rename the chosen key column to `comum`, then clean that column.
The selection `df['comum']` fails with `KeyError` when no column is named
`comum`, and with `AttributeError` (on `.str`) when several are. -/
def normalize (df : DataFrame) (key : String) : Except ReconcileError DataFrame :=
  let cols := renameCols key "comum" df.cols
  if cols.count "comum" = 0 then .error .missingColumn
  else if 1 < cols.count "comum" then .error .duplicateKeyColumn
  else .ok ⟨cols, df.rows.map (normRow cols)⟩

/-- Position of the key column `comum` in a frame's column list. -/
def keyIdx (df : DataFrame) : Nat := df.cols.indexOf "comum"

/-- The cell of a row at column position `i` (null when out of range). -/
def keyAt (i : Nat) (row : List Cell) : Cell := (row[i]?).getD Cell.null

/-- First-occurrence deduplication, as pandas `Series.unique`. -/
def uniqAux (seen : List Cell) : List Cell → List Cell
  | [] => []
  | c :: cs => if c ∈ seen then uniqAux seen cs else c :: uniqAux (c :: seen) cs

/-- pandas `Series.unique`: distinct values in order of first appearance. -/
def uniq (l : List Cell) : List Cell := uniqAux [] l

/-- Line 67: `cidades_comum = df2['comum'].dropna().unique()` — the distinct
non-null values of the key column of `df`. -/
def cidadesComum (df : DataFrame) : List Cell :=
  uniq (((df.rows.map (keyAt (keyIdx df))).filter (fun c => ! c.isNull)))

/-- Lines 72 / 74: `df[df['comum'].isin(keys)]` — keep the rows whose key
cell is one of `keys`, in their original order. -/
def restrictToKeys (df : DataFrame) (keys : List Cell) : DataFrame :=
  ⟨df.cols, df.rows.filter (fun r => decide (keyAt (keyIdx df) r ∈ keys))⟩

/-- The spec's `restrictToCommonKeys`: lines 67+72 — filter the primary
frame `a` to the distinct non-null keys of the secondary frame `b`. -/
def restrictToCommonKeys (a b : DataFrame) : DataFrame :=
  restrictToKeys a (cidadesComum b)

/-- The right frame's columns without its key column (pandas keeps a
single shared key column in the merge result). -/
def rKeptCols (r : DataFrame) : List String := r.cols.eraseIdx (keyIdx r)

/-- The merge result's column list: `l`'s columns, names colliding with a
non-key column of `r` suffixed `_x`, then `r`'s non-key columns, names
colliding with a column of `l` suffixed `_y` (pandas default suffixes). -/
def joinCols (l r : DataFrame) : List String :=
  l.cols.map (fun c => if c ≠ "comum" ∧ c ∈ r.cols then c ++ "_x" else c)
    ++ (rKeptCols r).map (fun c => if c ≠ "comum" ∧ c ∈ l.cols then c ++ "_y" else c)

/-- The right rows whose key equals the key of the left row `lr`. -/
def matchesOf (l r : DataFrame) (lr : List Cell) : List (List Cell) :=
  r.rows.filter (fun rr => decide (keyAt (keyIdx r) rr = keyAt (keyIdx l) lr))

/-- The merge rows contributed by one left row: one row per matching right
row (its key cell dropped), or a single null-padded row when nothing
matches. -/
def leftBlock (l r : DataFrame) (lr : List Cell) : List (List Cell) :=
  if matchesOf l r lr = [] then [lr ++ List.replicate (rKeptCols r).length Cell.null]
  else (matchesOf l r lr).map (fun rr => lr ++ rr.eraseIdx (keyIdx r))

/-- The merge rows contributed by right rows whose key matches no left
row: the key cell at the left key position, nulls in the other left
columns, then the right row without its key cell. -/
def rightOnlyRows (l r : DataFrame) : List (List Cell) :=
  (r.rows.filter
      (fun rr => decide (keyAt (keyIdx r) rr ∉ l.rows.map (keyAt (keyIdx l))))).map
    (fun rr =>
      (List.range l.cols.length).map
          (fun j => if j = keyIdx l then keyAt (keyIdx r) rr else Cell.null)
        ++ rr.eraseIdx (keyIdx r))

/-- Line 89: `pd.merge(l, r, on='comum', how='outer')`.  pandas does not
guarantee the row order of an outer merge across versions; every theorem
below about the join is insensitive to row order. -/
def outerJoin (l r : DataFrame) : DataFrame :=
  ⟨joinCols l r, l.rows.flatMap (leftBlock l r) ++ rightOnlyRows l r⟩

/-- The reconciliation core of the `transfer` route, lines 48–89:
normalize both frames, check the key column exists (lines 61–63), filter
both frames to the secondary's distinct keys (lines 67–74), fail when the
filtered primary frame is empty (lines 83–85), and outer-join (line 89). -/
def transfer (df1 df2 : DataFrame) (k1 k2 : String) : Except ReconcileError DataFrame :=
  match normalize df1 k1 with
  | .error e => .error e
  | .ok a =>
    match normalize df2 k2 with
    | .error e => .error e
    | .ok b =>
      if "comum" ∉ a.cols ∨ "comum" ∉ b.cols then .error .missingColumn
      else
        let cidades := cidadesComum b
        let af := restrictToKeys a cidades
        let bf := restrictToKeys b cidades
        if af.rows = [] then .error .emptyResult
        else .ok (outerJoin af bf)

/-- Number of distinct key values of a frame. -/
def distinctKeyCount (df : DataFrame) : Nat :=
  ((df.rows.map (keyAt (keyIdx df))).dedup).length

/-! ### Lemmas about renaming and the key-column count -/

theorem comum_not_mem_renameCols {cols : List String} {ka : String}
    (hka : ka ∉ cols) (hc : "comum" ∉ cols) :
    "comum" ∉ renameCols ka "comum" cols := by
  unfold renameCols
  intro hmem
  rcases List.mem_map.mp hmem with ⟨c, hcmem, hceq⟩
  by_cases h : c = ka
  · subst h; exact hka hcmem
  · rw [if_neg h] at hceq; exact hc (hceq ▸ hcmem)

theorem renameCols_comum_comum (cols : List String) :
    renameCols "comum" "comum" cols = cols := by
  unfold renameCols
  have h : ∀ c ∈ cols, (if c = "comum" then "comum" else c) = id c := by
    intro c _
    by_cases hc : c = "comum" <;> simp [hc]
  rw [List.map_congr_left h, List.map_id]

theorem count_comum_renameCols {cols : List String} {ka : String}
    (h1 : cols.count ka = 1) (h2 : ka ≠ "comum" → "comum" ∉ cols) :
    (renameCols ka "comum" cols).count "comum" = 1 := by
  by_cases hk : ka = "comum"
  · subst hk; rw [renameCols_comum_comum]; exact h1
  · have hc := h2 hk
    clear h2
    induction cols with
    | nil => simp at h1
    | cons c cs ih =>
      have hc' : "comum" ∉ cs := fun h => hc (List.mem_cons_of_mem _ h)
      have hcne : c ≠ "comum" := fun h => hc (h ▸ List.mem_cons_self c cs)
      rw [List.count_cons] at h1
      by_cases hca : c = ka
      · subst hca
        have h0 : cs.count c = 0 := by simp at h1; omega
        have hnot : c ∉ cs := List.count_eq_zero.mp h0
        show List.count "comum" ((if c = c then "comum" else c) :: renameCols c "comum" cs) = 1
        rw [if_pos rfl, List.count_cons,
          List.count_eq_zero.mpr (comum_not_mem_renameCols hnot hc')]
        simp
      · have h1' : cs.count ka = 1 := by
          rw [if_neg (by simpa [beq_iff_eq] using hca)] at h1; simpa using h1
        show List.count "comum" ((if c = ka then "comum" else c) :: renameCols ka "comum" cs) = 1
        rw [if_neg hca, List.count_cons, ih h1' hc']
        simp [hcne]

theorem normalize_eq_ok {df : DataFrame} {key : String}
    (h : (renameCols key "comum" df.cols).count "comum" = 1) :
    normalize df key =
      .ok ⟨renameCols key "comum" df.cols,
           df.rows.map (normRow (renameCols key "comum" df.cols))⟩ := by
  simp [normalize, h]

theorem normalize_ok_elim {df b : DataFrame} {key : String}
    (h : normalize df key = .ok b) :
    (renameCols key "comum" df.cols).count "comum" = 1 ∧
      b.cols = renameCols key "comum" df.cols ∧
      b.rows = df.rows.map (normRow b.cols) := by
  simp only [normalize] at h
  split_ifs at h with h0 h1
  · have hb := Except.ok.inj h
    have hcols : b.cols = renameCols key "comum" df.cols := by rw [← hb]
    have hrows : b.rows = df.rows.map (normRow (renameCols key "comum" df.cols)) := by
      rw [← hb]
    exact ⟨by omega, hcols, by rw [hrows, hcols]⟩

theorem comum_mem_of_normalize_ok {df b : DataFrame} {key : String}
    (h : normalize df key = .ok b) : "comum" ∈ b.cols := by
  rcases normalize_ok_elim h with ⟨h1, h2, -⟩
  rw [h2]
  have : 0 < (renameCols key "comum" df.cols).count "comum" := by omega
  exact List.count_pos_iff.mp this

/-! ### Lemmas about the per-row cleaning -/

theorem normRow_renameCols_eq {cols : List String} {ka : String}
    (hno : ∀ c ∈ cols, c ≠ ka → c ≠ "comum") :
    ∀ row : List Cell,
      normRow (renameCols ka "comum" cols) row =
        List.zipWith (fun c v => if c = ka then normalizeCell v else v) cols row := by
  induction cols with
  | nil => intro row; simp [normRow, renameCols]
  | cons c cs ih =>
    intro row
    cases row with
    | nil => simp [normRow, renameCols]
    | cons v vs =>
      have hno' : ∀ c' ∈ cs, c' ≠ ka → c' ≠ "comum" :=
        fun c' h => hno c' (List.mem_cons_of_mem _ h)
      have hhead : (if (if c = ka then "comum" else c) = "comum" then normalizeCell v else v)
          = (if c = ka then normalizeCell v else v) := by
        by_cases hca : c = ka
        · simp [hca]
        · have hcc : c ≠ "comum" := hno c (List.mem_cons_self c cs) hca
          simp [hca, hcc]
      show (if (if c = ka then "comum" else c) = "comum" then normalizeCell v else v) ::
            normRow (renameCols ka "comum" cs) vs = _
      rw [hhead, ih hno' vs]
      rfl

theorem zipWith_norm_getElem? {cols : List String} {ka : String} {row : List Cell} {j : Nat}
    {c : String} {v : Cell} (hc : cols[j]? = some c) (hv : row[j]? = some v) :
    (List.zipWith (fun c v => if c = ka then normalizeCell v else v) cols row)[j]? =
      some (if c = ka then normalizeCell v else v) := by
  rw [List.getElem?_zipWith, hc, hv]

/-! ### C1 — `normalize` renames the key column and cleans its values -/

/-- C1 counterexample: the claim quantifies over every row-set `A` with the
key column `ka` present; for `A = {columns [City, comum]}`, `ka = City`, the
code crashes (after the rename two columns are named `comum`, so the column
selection of line 56 yields a `DataFrame` and `.str` raises
`AttributeError`) and no row-set is produced at all. -/
theorem C1_counterexample :
    "City" ∈ (DataFrame.mk ["City", "comum"] [[Cell.str "a", Cell.str "b"]]).cols ∧
    normalize ⟨["City", "comum"], [[Cell.str "a", Cell.str "b"]]⟩ "City" =
      .error .duplicateKeyColumn := ⟨by decide, by rfl⟩

/-- C1 (amended): for every row-set `A` whose key column `ka` occurs exactly
once and which has no *other* column named `comum`, `normalize A ka` succeeds
and produces a row-set whose column list is the rename of `A`'s (so `ka` is
removed, not duplicated, and `comum` occurs exactly once), and in which the
cell paired with the old `ka` position is the string form of the original
cell, stripped and uppercased, every other cell untouched. -/
theorem C1_normalize_key_column (df : DataFrame) (ka : String)
    (h1 : df.cols.count ka = 1)
    (h2 : ka ≠ "comum" → "comum" ∉ df.cols) :
    ∃ df', normalize df ka = .ok df' ∧
      df'.cols = renameCols ka "comum" df.cols ∧
      df'.cols.count "comum" = 1 ∧
      (ka ≠ "comum" → ka ∉ df'.cols) ∧
      df'.rows = df.rows.map (fun row =>
        List.zipWith (fun c v => if c = ka then normalizeCell v else v) df.cols row) ∧
      ∀ (i j : Nat) (row : List Cell) (cell : Cell), df.rows[i]? = some row → df.cols[j]? = some ka → row[j]? = some cell →
        ∃ row' : List Cell, df'.rows[i]? = some row' ∧
          row'[j]? = some (Cell.str (normalizeStr (cellToString cell))) := by
  have hcount := count_comum_renameCols h1 h2
  have hno : ∀ c ∈ df.cols, c ≠ ka → c ≠ "comum" := by
    intro c hcmem hcka
    by_cases hk : ka = "comum"
    · exact hk ▸ hcka
    · exact fun hcc => h2 hk (hcc ▸ hcmem)
  refine ⟨_, normalize_eq_ok hcount, rfl, hcount, ?_, ?_, ?_⟩
  · intro hk hmem
    rcases List.mem_map.mp hmem with ⟨c, hcmem, hceq⟩
    by_cases h : c = ka
    · rw [if_pos h] at hceq; exact hk hceq.symm
    · rw [if_neg h] at hceq; exact h hceq
  · exact List.map_congr_left (fun row _ => normRow_renameCols_eq hno row)
  · intro i j row cell hrow hcol hcell
    refine ⟨normRow (renameCols ka "comum" df.cols) row, ?_, ?_⟩
    · rw [List.getElem?_map, hrow]; rfl
    · rw [normRow_renameCols_eq hno row, zipWith_norm_getElem? hcol hcell, if_pos rfl]
      rfl

/-- Witness for C1 at a concrete input: row-set with columns
`[City, Pop]` and one row, key column `City`. -/
theorem C1_witness :
    ((["City", "Pop"] : List String).count "City" = 1 ∧
      ("City" ≠ "comum" → "comum" ∉ (["City", "Pop"] : List String))) ∧
    (∃ df', normalize ⟨["City", "Pop"], [[Cell.str " a ", Cell.num 7]]⟩ "City" = .ok df' ∧
      df'.cols = renameCols "City" "comum"
        (DataFrame.mk ["City", "Pop"] [[Cell.str " a ", Cell.num 7]]).cols ∧
      df'.cols.count "comum" = 1 ∧
      ("City" ≠ "comum" → "City" ∉ df'.cols) ∧
      df'.rows = (DataFrame.mk ["City", "Pop"] [[Cell.str " a ", Cell.num 7]]).rows.map
        (fun row => List.zipWith (fun c v => if c = "City" then normalizeCell v else v)
          (DataFrame.mk ["City", "Pop"] [[Cell.str " a ", Cell.num 7]]).cols row) ∧
      ∀ (i j : Nat) (row : List Cell) (cell : Cell),
        (DataFrame.mk ["City", "Pop"] [[Cell.str " a ", Cell.num 7]]).rows[i]? = some row →
        (DataFrame.mk ["City", "Pop"] [[Cell.str " a ", Cell.num 7]]).cols[j]? = some "City" →
        row[j]? = some cell →
        ∃ row' : List Cell, df'.rows[i]? = some row' ∧
          row'[j]? = some (Cell.str (normalizeStr (cellToString cell)))) :=
  ⟨⟨by decide, by decide⟩,
    C1_normalize_key_column ⟨["City", "Pop"], [[Cell.str " a ", Cell.num 7]]⟩ "City"
      (by decide) (by decide)⟩

/-! ### C2 — a missing key column is an error -/

/-- C2 counterexample: the claim quantifies over every row-set lacking the
requested key column, explicitly including one that already has a column
literally named `comum`.  For the row-set with columns `[comum]` and key
`City` (absent), the rename of line 48 is a no-op, line 56 finds the
pre-existing `comum` column, and the operation *succeeds* instead of
failing with `MissingColumnError`. -/
theorem C2_counterexample :
    "City" ∉ (DataFrame.mk ["comum"] [[Cell.str "X"]]).cols ∧
    normalize ⟨["comum"], [[Cell.str "X"]]⟩ "City" =
      .ok ⟨["comum"], [[Cell.str "X"]]⟩ := ⟨by decide, by rfl⟩

/-- C2 (amended): for every row-set whose column set contains neither the
requested key column nor the reserved name `comum`, `normalize` fails with
`MissingColumnError` (and, the result being an error, produces no row-set). -/
theorem C2_missing_column (df : DataFrame) (ka : String)
    (hka : ka ∉ df.cols) (hc : "comum" ∉ df.cols) :
    normalize df ka = .error .missingColumn := by
  have h0 : (renameCols ka "comum" df.cols).count "comum" = 0 :=
    List.count_eq_zero.mpr (comum_not_mem_renameCols hka hc)
  simp [normalize, h0]

/-- Witness for C2 at a concrete input. -/
theorem C2_witness :
    ("Town" ∉ (["City"] : List String) ∧ "comum" ∉ (["City"] : List String)) ∧
    normalize ⟨["City"], [[Cell.str "A"]]⟩ "Town" = .error .missingColumn :=
  ⟨⟨by decide, by decide⟩,
    C2_missing_column ⟨["City"], [[Cell.str "A"]]⟩ "Town" (by decide) (by decide)⟩

/-! ### Lemmas about `uniq` (pandas `Series.unique`) -/

theorem mem_uniqAux {x : Cell} :
    ∀ (l seen : List Cell), x ∈ uniqAux seen l ↔ x ∈ l ∧ x ∉ seen
  | [], seen => by simp [uniqAux]
  | c :: cs, seen => by
    by_cases hc : c ∈ seen
    · rw [show uniqAux seen (c :: cs) = uniqAux seen cs from if_pos hc,
        mem_uniqAux cs seen]
      constructor
      · exact fun ⟨h1, h2⟩ => ⟨List.mem_cons_of_mem _ h1, h2⟩
      · rintro ⟨h1, h2⟩
        rcases List.mem_cons.mp h1 with rfl | h1
        · exact absurd hc h2
        · exact ⟨h1, h2⟩
    · rw [show uniqAux seen (c :: cs) = c :: uniqAux (c :: seen) cs from if_neg hc]
      constructor
      · intro h
        rcases List.mem_cons.mp h with rfl | h
        · exact ⟨List.mem_cons_self _ _, hc⟩
        · rcases (mem_uniqAux cs (c :: seen)).mp h with ⟨h1, h2⟩
          exact ⟨List.mem_cons_of_mem _ h1,
            fun hx => h2 (List.mem_cons_of_mem _ hx)⟩
      · rintro ⟨h1, h2⟩
        rcases List.mem_cons.mp h1 with rfl | h1
        · exact List.mem_cons_self _ _
        · by_cases hxc : x = c
          · exact hxc ▸ List.mem_cons_self _ _
          · exact List.mem_cons_of_mem _ ((mem_uniqAux cs (c :: seen)).mpr
              ⟨h1, fun hx => (List.mem_cons.mp hx).elim hxc h2⟩)

theorem mem_uniq {x : Cell} {l : List Cell} : x ∈ uniq l ↔ x ∈ l := by
  rw [uniq, mem_uniqAux]
  simp

/-! ### C3 — `restrictToCommonKeys` is a stable, lossless filter -/

/-- C3: every row of `restrictToCommonKeys A B` has its key in `B`'s key
set; every row occurrence of `A` whose key is in `B`'s key set is kept with
its exact multiplicity (no duplication or loss); and the retained rows form
a sublist of `A`'s rows, i.e. they keep their relative order (stable
filter). -/
theorem C3_restrict_stable_filter (a b : DataFrame) :
    (∀ r ∈ (restrictToCommonKeys a b).rows, keyAt (keyIdx a) r ∈ cidadesComum b) ∧
    (∀ r : List Cell, keyAt (keyIdx a) r ∈ cidadesComum b →
      (restrictToCommonKeys a b).rows.count r = a.rows.count r) ∧
    (restrictToCommonKeys a b).rows.Sublist a.rows := by
  refine ⟨?_, ?_, ?_⟩
  · intro r hr
    have := List.of_mem_filter hr
    exact of_decide_eq_true this
  · intro r hkey
    exact List.count_filter (by simpa using hkey)
  · exact List.filter_sublist _

/-! ### C8 — normalizing an already-normalized key column is a no-op -/

theorem normRow_id {cols : List String} :
    ∀ {row : List Cell}, row.length = cols.length →
      (∀ (j : Nat) (cell : Cell), cols[j]? = some "comum" → row[j]? = some cell →
        normalizeCell cell = cell) →
      normRow cols row = row := by
  induction cols with
  | nil =>
    intro row hlen _
    cases row with
    | nil => rfl
    | cons v vs => simp at hlen
  | cons c cs ih =>
    intro row hlen hcell
    cases row with
    | nil => simp at hlen
    | cons v vs =>
      have hlen' : vs.length = cs.length := by simpa using hlen
      have hcell' : ∀ (j : Nat) (cell : Cell), cs[j]? = some "comum" → vs[j]? = some cell →
          normalizeCell cell = cell :=
        fun j cell hc hv => hcell (j + 1) cell (by simpa using hc) (by simpa using hv)
      show (if c = "comum" then normalizeCell v else v) :: normRow cs vs = v :: vs
      rw [ih hlen' hcell']
      by_cases hc : c = "comum"
      · rw [if_pos hc, hcell 0 v (by simp [hc]) (by simp)]
      · rw [if_neg hc]

theorem normalizeCell_of_normalized {s : String}
    (hstrip : pyStrip s.data = s.data) (hupper : pyUpper s.data = s.data) :
    normalizeCell (Cell.str s) = Cell.str s := by
  show Cell.str ⟨pyUpper (pyStrip s.data)⟩ = Cell.str s
  rw [hstrip, hupper]

/-- C8: on a row-set whose single `comum` column already holds stripped,
uppercased strings, running the normalization again with key column `comum`
returns the row-set unchanged: the rename `comum → comum` does nothing and
`upper(strip(s)) = s` for each such cell. -/
theorem C8_normalize_idempotent (df : DataFrame)
    (hcount : df.cols.count "comum" = 1)
    (hwf : df.WF)
    (hnorm : ∀ row ∈ df.rows, ∀ (j : Nat) (cell : Cell),
      df.cols[j]? = some "comum" → row[j]? = some cell →
      ∃ s : String, cell = Cell.str s ∧ pyStrip s.data = s.data ∧ pyUpper s.data = s.data) :
    normalize df "comum" = .ok df := by
  have hrn : renameCols "comum" "comum" df.cols = df.cols := renameCols_comum_comum _
  have hcount' : (renameCols "comum" "comum" df.cols).count "comum" = 1 := by
    rw [hrn]; exact hcount
  rw [normalize_eq_ok hcount', hrn]
  have hfix : ∀ row ∈ df.rows, normRow df.cols row = id row := by
    intro row hrow
    refine normRow_id (hwf row hrow) ?_
    intro j cell hc hv
    rcases hnorm row hrow j cell hc hv with ⟨s, rfl, hstrip, hupper⟩
    exact normalizeCell_of_normalized hstrip hupper
  rw [List.map_congr_left hfix, List.map_id]

/-- Witness for C8: the one-column, one-row frame `{comum: "AB"}`. -/
theorem C8_witness :
    ((["comum"] : List String).count "comum" = 1 ∧
      (DataFrame.mk ["comum"] [[Cell.str "AB"]]).WF ∧
      (∀ row ∈ (DataFrame.mk ["comum"] [[Cell.str "AB"]]).rows, ∀ (j : Nat) (cell : Cell),
        (["comum"] : List String)[j]? = some "comum" → row[j]? = some cell →
        ∃ s : String, cell = Cell.str s ∧ pyStrip s.data = s.data ∧ pyUpper s.data = s.data)) ∧
    normalize ⟨["comum"], [[Cell.str "AB"]]⟩ "comum" = .ok ⟨["comum"], [[Cell.str "AB"]]⟩ := by
  have hnorm : ∀ row ∈ (DataFrame.mk ["comum"] [[Cell.str "AB"]]).rows, ∀ (j : Nat) (cell : Cell),
      (["comum"] : List String)[j]? = some "comum" → row[j]? = some cell →
      ∃ s : String, cell = Cell.str s ∧ pyStrip s.data = s.data ∧ pyUpper s.data = s.data := by
    intro row hrow j cell hc hv
    have hr : row = [Cell.str "AB"] := by simpa using hrow
    subst hr
    cases j with
    | zero =>
      refine ⟨"AB", by simpa using hv.symm, by decide, by decide⟩
    | succ n => simp at hv
  have hwfw : (DataFrame.mk ["comum"] [[Cell.str "AB"]]).WF := by
    intro r hr
    simp only [List.mem_singleton] at hr
    subst hr
    rfl
  exact ⟨⟨by decide, hwfw, hnorm⟩,
    C8_normalize_idempotent ⟨["comum"], [[Cell.str "AB"]]⟩ (by decide) hwfw hnorm⟩

/-! ### Pointwise facts about the rows of a normalized frame -/

theorem normalize_comum_col {df b : DataFrame} {key : String}
    (h : normalize df key = .ok b) :
    b.cols[keyIdx b]? = some "comum" := by
  have hmem := comum_mem_of_normalize_ok h
  have hki : b.cols.indexOf "comum" < b.cols.length := List.indexOf_lt_length.mpr hmem
  have hget := List.indexOf_get (a := "comum") (l := b.cols) hki
  rw [keyIdx, List.getElem?_eq_getElem hki]
  exact congrArg some hget

theorem keyAt_normalize {df b : DataFrame} {key : String}
    (hwf : df.WF) (h : normalize df key = .ok b) :
    ∀ r ∈ b.rows, ∃ v : Cell, keyAt (keyIdx b) r = normalizeCell v := by
  rcases normalize_ok_elim h with ⟨hcnt, hcols, hrows⟩
  intro r hr
  rw [hrows] at hr
  rcases List.mem_map.mp hr with ⟨row, hrowmem, rfl⟩
  have hlen : row.length = b.cols.length := by
    rw [hcols]
    unfold renameCols
    rw [List.length_map]
    exact hwf row hrowmem
  have hki : keyIdx b < b.cols.length :=
    List.indexOf_lt_length.mpr (comum_mem_of_normalize_ok h)
  have hki' : keyIdx b < row.length := by omega
  have hcol : b.cols[keyIdx b]? = some "comum" := normalize_comum_col h
  have hv : row[keyIdx b]? = some row[keyIdx b] := List.getElem?_eq_getElem hki'
  refine ⟨row[keyIdx b], ?_⟩
  simp only [keyAt, normRow]
  rw [zipWith_norm_getElem? hcol hv, if_pos rfl]
  rfl

theorem normalize_cell_pointwise {df b : DataFrame} {key : String}
    (h : normalize df key = .ok b) {i j : Nat} {row : List Cell} {cell : Cell}
    (hrow : df.rows[i]? = some row) (hcol : df.cols[j]? = some key)
    (hcell : row[j]? = some cell) :
    ∃ row' : List Cell, b.rows[i]? = some row' ∧ row'[j]? = some (normalizeCell cell) := by
  rcases normalize_ok_elim h with ⟨hcnt, hcols, hrows⟩
  refine ⟨normRow b.cols row, ?_, ?_⟩
  · rw [hrows, List.getElem?_map, hrow]
    rfl
  · have hcolj : b.cols[j]? = some "comum" := by
      rw [hcols]
      unfold renameCols
      rw [List.getElem?_map, hcol]
      simp
    simp only [normRow]
    rw [zipWith_norm_getElem? hcolj hcell, if_pos rfl]

/-! ### C9 — the symmetric filter on the secondary frame is an identity -/

/-- C9: the implementation filters the secondary frame, too, against the
common key list (line 74) — but since that list is exactly the secondary's
own distinct non-null key list (line 67), and a normalized frame has no
null keys, the filter keeps every row: the filtered secondary frame equals
the normalized secondary frame. -/
theorem C9_secondary_filter_identity (df2 : DataFrame) (k2 : String) (b : DataFrame)
    (hwf : df2.WF) (h : normalize df2 k2 = .ok b) :
    restrictToKeys b (cidadesComum b) = b := by
  unfold restrictToKeys
  have hfilter : b.rows.filter
      (fun r => decide (keyAt (keyIdx b) r ∈ cidadesComum b)) = b.rows := by
    rw [List.filter_eq_self]
    intro r hr
    rcases keyAt_normalize hwf h r hr with ⟨v, hv⟩
    refine decide_eq_true ?_
    unfold cidadesComum
    rw [mem_uniq, List.mem_filter]
    refine ⟨List.mem_map.mpr ⟨r, hr, rfl⟩, ?_⟩
    rw [hv]
    rfl
  rw [hfilter]

/-- Witness for C9: normalizing `{Town: ["lisbon"]}` and filtering it
against its own key list returns it unchanged. -/
theorem C9_witness :
    (DataFrame.mk ["Town"] [[Cell.str "lisbon"]]).WF ∧
    normalize ⟨["Town"], [[Cell.str "lisbon"]]⟩ "Town" =
      .ok ⟨["comum"], [[Cell.str "LISBON"]]⟩ ∧
    restrictToKeys ⟨["comum"], [[Cell.str "LISBON"]]⟩
        (cidadesComum ⟨["comum"], [[Cell.str "LISBON"]]⟩) =
      ⟨["comum"], [[Cell.str "LISBON"]]⟩ := by
  have hwf : (DataFrame.mk ["Town"] [[Cell.str "lisbon"]]).WF := by
    intro r hr
    simp only [List.mem_singleton] at hr
    subst hr
    rfl
  have h : normalize ⟨["Town"], [[Cell.str "lisbon"]]⟩ "Town" =
      .ok ⟨["comum"], [[Cell.str "LISBON"]]⟩ := by rfl
  exact ⟨hwf, h, C9_secondary_filter_identity _ "Town" _ hwf h⟩

/-! ### C10 — a normalized key column holds no nulls -/

/-- C10: after a successful `normalize`, every key cell of the result is a
string (never null): normalization stringifies before stripping and
uppercasing.  Hence the `dropna()` of line 67 removes nothing, and a row
whose original key cell was null gets the literal key `"NAN"`
(`astype(str)` renders `NaN` as `"nan"`, uppercased to `"NAN"`), so it is
filtered and joined like any other key — in particular two null-origin
keys on the two sides are the equal string `"NAN"` and match. -/
theorem C10_no_null_keys (df : DataFrame) (k : String) (b : DataFrame)
    (hwf : df.WF) (h : normalize df k = .ok b) :
    (∀ r ∈ b.rows, ∃ s : String, keyAt (keyIdx b) r = Cell.str s) ∧
    ((b.rows.map (keyAt (keyIdx b))).filter (fun c => ! c.isNull) =
      b.rows.map (keyAt (keyIdx b))) ∧
    (∀ (i j : Nat) (row : List Cell), df.rows[i]? = some row →
      df.cols[j]? = some k → row[j]? = some Cell.null →
      ∃ row' : List Cell, b.rows[i]? = some row' ∧ row'[j]? = some (Cell.str "NAN")) := by
  refine ⟨?_, ?_, ?_⟩
  · intro r hr
    rcases keyAt_normalize hwf h r hr with ⟨v, hv⟩
    exact ⟨normalizeStr (cellToString v), hv⟩
  · rw [List.filter_eq_self]
    intro c hc
    rcases List.mem_map.mp hc with ⟨r, hr, rfl⟩
    rcases keyAt_normalize hwf h r hr with ⟨v, hv⟩
    rw [hv]
    rfl
  · intro i j row hrow hcol hcell
    rcases normalize_cell_pointwise h hrow hcol hcell with ⟨row', h1, h2⟩
    refine ⟨row', h1, ?_⟩
    rw [h2]
    decide

/-- Witness for C10: a frame whose single key cell is null. -/
theorem C10_witness :
    (DataFrame.mk ["City"] [[Cell.null]]).WF ∧
    normalize ⟨["City"], [[Cell.null]]⟩ "City" = .ok ⟨["comum"], [[Cell.str "NAN"]]⟩ ∧
    ((∀ r ∈ (DataFrame.mk ["comum"] [[Cell.str "NAN"]]).rows,
        ∃ s : String, keyAt (keyIdx ⟨["comum"], [[Cell.str "NAN"]]⟩) r = Cell.str s) ∧
      (((DataFrame.mk ["comum"] [[Cell.str "NAN"]]).rows.map
          (keyAt (keyIdx ⟨["comum"], [[Cell.str "NAN"]]⟩))).filter (fun c => ! c.isNull) =
        (DataFrame.mk ["comum"] [[Cell.str "NAN"]]).rows.map
          (keyAt (keyIdx ⟨["comum"], [[Cell.str "NAN"]]⟩))) ∧
      (∀ (i j : Nat) (row : List Cell),
        (DataFrame.mk ["City"] [[Cell.null]]).rows[i]? = some row →
        (DataFrame.mk ["City"] [[Cell.null]]).cols[j]? = some "City" →
        row[j]? = some Cell.null →
        ∃ row' : List Cell, (DataFrame.mk ["comum"] [[Cell.str "NAN"]]).rows[i]? = some row' ∧
          row'[j]? = some (Cell.str "NAN"))) := by
  have hwf : (DataFrame.mk ["City"] [[Cell.null]]).WF := by
    intro r hr
    simp only [List.mem_singleton] at hr
    subst hr
    rfl
  have h : normalize ⟨["City"], [[Cell.null]]⟩ "City" =
      .ok ⟨["comum"], [[Cell.str "NAN"]]⟩ := by rfl
  exact ⟨hwf, h, C10_no_null_keys _ "City" _ hwf h⟩

/-! ### C4 — `EmptyResultError` exactly when the filtered primary is empty -/

/-- C4: once both frames normalize successfully, the pipeline fails with
`EmptyResultError` precisely when the primary frame filtered to the common
keys has no rows; the check (lines 83–85) sits before the merge (line 89),
and on that failure no result row-set is produced. -/
theorem C4_empty_result (df1 df2 a b : DataFrame) (k1 k2 : String)
    (h1 : normalize df1 k1 = .ok a) (h2 : normalize df2 k2 = .ok b) :
    (transfer df1 df2 k1 k2 = .error .emptyResult ↔ (restrictToCommonKeys a b).rows = []) ∧
    (∀ res : DataFrame, transfer df1 df2 k1 k2 = .error .emptyResult →
      transfer df1 df2 k1 k2 ≠ .ok res) := by
  have hca := comum_mem_of_normalize_ok h1
  have hcb := comum_mem_of_normalize_ok h2
  constructor
  · unfold transfer
    rw [h1, h2]
    dsimp only
    rw [if_neg (by simp [hca, hcb])]
    unfold restrictToCommonKeys
    split_ifs with hemp
    · simpa using hemp
    · constructor
      · intro hcontra
        exact absurd hcontra (by simp)
      · intro hcontra
        exact absurd hcontra hemp
  · intro res he hok
    rw [he] at hok
    exact absurd hok (by simp)

/-- Witness for C4: disjoint single keys `A` vs `B`; the filtered primary
frame is empty and `transfer` fails with `EmptyResultError`. -/
theorem C4_witness :
    normalize ⟨["City"], [[Cell.str "A"]]⟩ "City" = .ok ⟨["comum"], [[Cell.str "A"]]⟩ ∧
    normalize ⟨["Town"], [[Cell.str "B"]]⟩ "Town" = .ok ⟨["comum"], [[Cell.str "B"]]⟩ ∧
    ((transfer ⟨["City"], [[Cell.str "A"]]⟩ ⟨["Town"], [[Cell.str "B"]]⟩ "City" "Town" =
        .error .emptyResult ↔
      (restrictToCommonKeys ⟨["comum"], [[Cell.str "A"]]⟩
        ⟨["comum"], [[Cell.str "B"]]⟩).rows = []) ∧
     (∀ res : DataFrame,
        transfer ⟨["City"], [[Cell.str "A"]]⟩ ⟨["Town"], [[Cell.str "B"]]⟩ "City" "Town" =
          .error .emptyResult →
        transfer ⟨["City"], [[Cell.str "A"]]⟩ ⟨["Town"], [[Cell.str "B"]]⟩ "City" "Town" ≠
          .ok res)) :=
  ⟨by rfl, by rfl, C4_empty_result _ _ _ _ "City" "Town" (by rfl) (by rfl)⟩

/-! ### C7 — the end-to-end scenario -/

/-- C7 counterexample: on the spec's concrete tables the pipeline does
*not* return the claimed single joined row.  The common key list of line
67 is Table2's own distinct key list `[LISBON, FARO]` (not the
intersection `{LISBON}`), so Table2 is not narrowed at all and the outer
join emits a second row for the unmatched key `FARO`. -/
theorem C7_counterexample :
    transfer ⟨["City", "Pop"], [[.str "Lisbon", .num 500], [.str " porto ", .num 200]]⟩
        ⟨["Town", "Region"], [[.str "LISBON", .str "X"], [.str "Faro", .str "Y"]]⟩
        "City" "Town" ≠
      .ok ⟨["comum", "Pop", "Region"], [[.str "LISBON", .num 500, .str "X"]]⟩ ∧
    (transfer ⟨["City", "Pop"], [[.str "Lisbon", .num 500], [.str " porto ", .num 200]]⟩
        ⟨["Town", "Region"], [[.str "LISBON", .str "X"], [.str "Faro", .str "Y"]]⟩
        "City" "Town").map (fun d => d.rows.length) = .ok 2 := by
  constructor
  · intro heq
    rw [show transfer ⟨["City", "Pop"], [[.str "Lisbon", .num 500], [.str " porto ", .num 200]]⟩
        ⟨["Town", "Region"], [[.str "LISBON", .str "X"], [.str "Faro", .str "Y"]]⟩
        "City" "Town" =
      .ok ⟨["comum", "Pop", "Region"],
        [[.str "LISBON", .num 500, .str "X"], [.str "FARO", Cell.null, .str "Y"]]⟩ from rfl]
      at heq
    exact absurd (Except.ok.inj heq) (by decide)
  · rfl

/-- C7 (amended): on the spec's concrete tables the pipeline normalizes
Table1's keys to `LISBON` / `PORTO` and Table2's to `LISBON` / `FARO`,
computes the common key list as Table2's own distinct keys
`[LISBON, FARO]`, filters Table1 to its `LISBON` row and leaves Table2
whole, and outer-joins to two rows: `{comum: LISBON, Pop: 500, Region: X}`
and `{comum: FARO, Pop: null, Region: Y}`. -/
theorem C7_end_to_end :
    normalize ⟨["City", "Pop"], [[.str "Lisbon", .num 500], [.str " porto ", .num 200]]⟩
        "City" =
      .ok ⟨["comum", "Pop"], [[.str "LISBON", .num 500], [.str "PORTO", .num 200]]⟩ ∧
    normalize ⟨["Town", "Region"], [[.str "LISBON", .str "X"], [.str "Faro", .str "Y"]]⟩
        "Town" =
      .ok ⟨["comum", "Region"], [[.str "LISBON", .str "X"], [.str "FARO", .str "Y"]]⟩ ∧
    cidadesComum ⟨["comum", "Region"], [[.str "LISBON", .str "X"], [.str "FARO", .str "Y"]]⟩ =
      [.str "LISBON", .str "FARO"] ∧
    restrictToCommonKeys ⟨["comum", "Pop"], [[.str "LISBON", .num 500], [.str "PORTO", .num 200]]⟩
        ⟨["comum", "Region"], [[.str "LISBON", .str "X"], [.str "FARO", .str "Y"]]⟩ =
      ⟨["comum", "Pop"], [[.str "LISBON", .num 500]]⟩ ∧
    restrictToKeys ⟨["comum", "Region"], [[.str "LISBON", .str "X"], [.str "FARO", .str "Y"]]⟩
        [.str "LISBON", .str "FARO"] =
      ⟨["comum", "Region"], [[.str "LISBON", .str "X"], [.str "FARO", .str "Y"]]⟩ ∧
    transfer ⟨["City", "Pop"], [[.str "Lisbon", .num 500], [.str " porto ", .num 200]]⟩
        ⟨["Town", "Region"], [[.str "LISBON", .str "X"], [.str "Faro", .str "Y"]]⟩
        "City" "Town" =
      .ok ⟨["comum", "Pop", "Region"],
        [[.str "LISBON", .num 500, .str "X"], [.str "FARO", Cell.null, .str "Y"]]⟩ :=
  ⟨rfl, rfl, rfl, rfl, rfl, rfl⟩

/-! ### Lemmas about the join's column list -/

theorem append_x_ne_comum (c : String) : c ++ "_x" ≠ "comum" := by
  intro h
  have hd := congrArg String.data h
  rw [String.data_append] at hd
  have hl := congrArg List.getLast? hd
  rw [List.getLast?_append] at hl
  rw [show ("_x".data.getLast?).or (c.data.getLast?) = some 'x' from rfl] at hl
  exact absurd hl (by decide)

theorem append_y_ne_comum (c : String) : c ++ "_y" ≠ "comum" := by
  intro h
  have hd := congrArg String.data h
  rw [String.data_append] at hd
  have hl := congrArg List.getLast? hd
  rw [List.getLast?_append] at hl
  rw [show ("_y".data.getLast?).or (c.data.getLast?) = some 'y' from rfl] at hl
  exact absurd hl (by decide)

theorem count_comum_map_eq {f : String → String} {l : List String}
    (hf : ∀ c ∈ l, (f c = "comum" ↔ c = "comum")) :
    (l.map f).count "comum" = l.count "comum" := by
  induction l with
  | nil => rfl
  | cons c cs ih =>
    rw [List.map_cons, List.count_cons, List.count_cons,
      ih (fun c h => hf c (List.mem_cons_of_mem _ h))]
    have hiff := hf c (List.mem_cons_self c cs)
    by_cases hc : c = "comum"
    · subst hc
      simp [hiff.mpr rfl]
    · have : f c ≠ "comum" := fun h => hc (hiff.mp h)
      simp [hc, this]

theorem not_mem_eraseIdx_indexOf {l : List String} (h : l.count "comum" = 1) :
    "comum" ∉ l.eraseIdx (l.indexOf "comum") := by
  induction l with
  | nil => simp
  | cons c cs ih =>
    by_cases hc : c = "comum"
    · subst hc
      have h0 : cs.count "comum" = 0 := by
        rw [List.count_cons] at h
        simp at h
        omega
      rw [List.indexOf_cons_self, List.eraseIdx_cons_zero]
      exact List.count_eq_zero.mp h0
    · have h1 : cs.count "comum" = 1 := by
        rw [List.count_cons] at h
        simpa [hc] using h
      rw [List.indexOf_cons_ne _ hc, Nat.succ_eq_add_one, List.eraseIdx_cons_succ]
      intro hmem
      rcases List.mem_cons.mp hmem with heq | hmem'
      · exact hc heq.symm
      · exact ih h1 hmem'

theorem mem_eraseIdx_indexOf {l : List String} {c : String}
    (hc : c ∈ l) (hne : c ≠ "comum") :
    c ∈ l.eraseIdx (l.indexOf "comum") := by
  induction l with
  | nil => cases hc
  | cons d ds ih =>
    by_cases hd : d = "comum"
    · subst hd
      rw [List.indexOf_cons_self, List.eraseIdx_cons_zero]
      rcases List.mem_cons.mp hc with heq | h
      · exact absurd heq hne
      · exact h
    · rw [List.indexOf_cons_ne _ hd, Nat.succ_eq_add_one, List.eraseIdx_cons_succ]
      rcases List.mem_cons.mp hc with heq | h
      · exact heq ▸ List.mem_cons_self _ _
      · exact List.mem_cons_of_mem _ (ih h)

theorem joinCols_length (l r : DataFrame) :
    (joinCols l r).length = l.cols.length + (rKeptCols r).length := by
  simp [joinCols]

/-! ### C5 — shape of the outer-join result -/

/-- C5: under the well-formedness the pipeline guarantees (each side has
exactly one `comum` column, each row one cell per column), the outer join
keeps a single `comum` column; every non-key column of either side appears
in the result, suffixed `_x` / `_y` by its source side exactly when its
name collides with a column of the other side; every result row has one
cell for every result column (the union of both inputs' columns); a left
row with no key match on the right is padded with nulls for all of the
right side's non-key columns, and an unmatched right row gets nulls in
every left column except the shared key position. -/
theorem C5_outer_join_shape (l r : DataFrame)
    (hcl : l.cols.count "comum" = 1) (hcr : r.cols.count "comum" = 1)
    (hwfl : l.WF) (hwfr : r.WF) :
    (outerJoin l r).cols.count "comum" = 1 ∧
    (∀ c ∈ l.cols, c ≠ "comum" →
      (c ∈ r.cols → c ++ "_x" ∈ (outerJoin l r).cols) ∧
      (c ∉ r.cols → c ∈ (outerJoin l r).cols)) ∧
    (∀ c ∈ r.cols, c ≠ "comum" →
      (c ∈ l.cols → c ++ "_y" ∈ (outerJoin l r).cols) ∧
      (c ∉ l.cols → c ∈ (outerJoin l r).cols)) ∧
    (∀ row ∈ (outerJoin l r).rows, row.length = (outerJoin l r).cols.length) ∧
    (∀ lr ∈ l.rows, (∀ rr ∈ r.rows, keyAt (keyIdx r) rr ≠ keyAt (keyIdx l) lr) →
      lr ++ List.replicate (r.cols.length - 1) Cell.null ∈ (outerJoin l r).rows) ∧
    (∀ rr ∈ r.rows, keyAt (keyIdx r) rr ∉ l.rows.map (keyAt (keyIdx l)) →
      (List.range l.cols.length).map
          (fun j => if j = keyIdx l then keyAt (keyIdx r) rr else Cell.null)
        ++ rr.eraseIdx (keyIdx r) ∈ (outerJoin l r).rows) := by
  have hmr : "comum" ∈ r.cols := List.count_pos_iff.mp (by omega)
  have hrir : keyIdx r < r.cols.length := List.indexOf_lt_length.mpr hmr
  have hrk : (rKeptCols r).length = r.cols.length - 1 := by
    rw [rKeptCols, List.length_eraseIdx, if_pos hrir]
  have hnk : "comum" ∉ rKeptCols r := not_mem_eraseIdx_indexOf hcr
  refine ⟨?_, ?_, ?_, ?_, ?_, ?_⟩
  · show (joinCols l r).count "comum" = 1
    rw [joinCols, List.count_append]
    have hfst :
        (l.cols.map (fun c => if c ≠ "comum" ∧ c ∈ r.cols then c ++ "_x" else c)).count
          "comum" = 1 := by
      rw [count_comum_map_eq, hcl]
      intro c _
      constructor
      · intro hfc
        by_cases hcond : c ≠ "comum" ∧ c ∈ r.cols
        · rw [if_pos hcond] at hfc
          exact absurd hfc (append_x_ne_comum c)
        · rwa [if_neg hcond] at hfc
      · intro hceq
        subst hceq
        rw [if_neg (by simp)]
    have hsnd :
        ((rKeptCols r).map (fun c => if c ≠ "comum" ∧ c ∈ l.cols then c ++ "_y" else c)).count
          "comum" = 0 := by
      rw [List.count_eq_zero]
      intro hmem
      rcases List.mem_map.mp hmem with ⟨c, hcmem, hceq⟩
      by_cases hcond : c ≠ "comum" ∧ c ∈ l.cols
      · rw [if_pos hcond] at hceq
        exact absurd hceq (append_y_ne_comum c)
      · rw [if_neg hcond] at hceq
        exact hnk (hceq ▸ hcmem)
    rw [hfst, hsnd]
  · intro c hc hne
    constructor
    · intro hcinr
      refine List.mem_append.mpr (Or.inl (List.mem_map.mpr ⟨c, hc, ?_⟩))
      rw [if_pos ⟨hne, hcinr⟩]
    · intro hninr
      refine List.mem_append.mpr (Or.inl (List.mem_map.mpr ⟨c, hc, ?_⟩))
      rw [if_neg (fun hcond => hninr hcond.2)]
  · intro c hc hne
    have hckept : c ∈ rKeptCols r := mem_eraseIdx_indexOf hc hne
    constructor
    · intro hcinl
      refine List.mem_append.mpr (Or.inr (List.mem_map.mpr ⟨c, hckept, ?_⟩))
      rw [if_pos ⟨hne, hcinl⟩]
    · intro hninl
      refine List.mem_append.mpr (Or.inr (List.mem_map.mpr ⟨c, hckept, ?_⟩))
      rw [if_neg (fun hcond => hninl hcond.2)]
  · intro row hrow
    rw [show (outerJoin l r).cols = joinCols l r from rfl, joinCols_length]
    rcases List.mem_append.mp hrow with hA | hB
    · rcases List.mem_flatMap.mp hA with ⟨lr, hlr, hblock⟩
      rw [leftBlock] at hblock
      split_ifs at hblock with hms
      · rw [List.mem_singleton] at hblock
        subst hblock
        rw [List.length_append, List.length_replicate, hwfl lr hlr]
      · rcases List.mem_map.mp hblock with ⟨rr, hrrm, hre⟩
        have hrr : rr ∈ r.rows := List.mem_of_mem_filter hrrm
        subst hre
        rw [List.length_append, List.length_eraseIdx, hwfr rr hrr,
          if_pos hrir, hwfl lr hlr, hrk]
    · rcases List.mem_map.mp hB with ⟨rr, hrrm, hre⟩
      have hrr : rr ∈ r.rows := List.mem_of_mem_filter hrrm
      subst hre
      rw [List.length_append, List.length_map, List.length_range,
        List.length_eraseIdx, hwfr rr hrr, if_pos hrir, hrk]
  · intro lr hlr hnomatch
    have hms : matchesOf l r lr = [] := by
      rw [matchesOf, List.filter_eq_nil_iff]
      intro rr hrr
      simpa using hnomatch rr hrr
    refine List.mem_append.mpr (Or.inl (List.mem_flatMap.mpr ⟨lr, hlr, ?_⟩))
    rw [leftBlock, if_pos hms, hrk]
    exact List.mem_singleton.mpr rfl
  · intro rr hrr hnotin
    refine List.mem_append.mpr (Or.inr ?_)
    exact List.mem_map.mpr
      ⟨rr, List.mem_filter.mpr ⟨hrr, decide_eq_true hnotin⟩, rfl⟩

/-- Witness for C5: one-row frames with a colliding non-key column `Pop`. -/
theorem C5_witness :
    ((["comum", "Pop"] : List String).count "comum" = 1 ∧
      (DataFrame.mk ["comum", "Pop"] [[Cell.str "A", Cell.num 1]]).WF ∧
      (DataFrame.mk ["comum", "Pop"] [[Cell.str "B", Cell.num 2]]).WF) ∧
    ((outerJoin ⟨["comum", "Pop"], [[Cell.str "A", Cell.num 1]]⟩
        ⟨["comum", "Pop"], [[Cell.str "B", Cell.num 2]]⟩).cols.count "comum" = 1 ∧
      (∀ c ∈ (["comum", "Pop"] : List String), c ≠ "comum" →
        (c ∈ (["comum", "Pop"] : List String) →
          c ++ "_x" ∈ (outerJoin ⟨["comum", "Pop"], [[Cell.str "A", Cell.num 1]]⟩
            ⟨["comum", "Pop"], [[Cell.str "B", Cell.num 2]]⟩).cols) ∧
        (c ∉ (["comum", "Pop"] : List String) →
          c ∈ (outerJoin ⟨["comum", "Pop"], [[Cell.str "A", Cell.num 1]]⟩
            ⟨["comum", "Pop"], [[Cell.str "B", Cell.num 2]]⟩).cols))) := by
  have hwf1 : (DataFrame.mk ["comum", "Pop"] [[Cell.str "A", Cell.num 1]]).WF := by
    intro x hx
    simp only [List.mem_singleton] at hx
    subst hx
    rfl
  have hwf2 : (DataFrame.mk ["comum", "Pop"] [[Cell.str "B", Cell.num 2]]).WF := by
    intro x hx
    simp only [List.mem_singleton] at hx
    subst hx
    rfl
  have h := C5_outer_join_shape ⟨["comum", "Pop"], [[Cell.str "A", Cell.num 1]]⟩
    ⟨["comum", "Pop"], [[Cell.str "B", Cell.num 2]]⟩ (by decide) (by decide) hwf1 hwf2
  exact ⟨⟨by decide, hwf1, hwf2⟩, h.1, h.2.1⟩

/-! ### Counting lemmas for the join's row count -/

theorem sum_map_one {α : Type} (l : List α) : (l.map (fun _ => (1 : Nat))).sum = l.length := by
  induction l with
  | nil => rfl
  | cons a l ih => simp [ih]; omega

theorem sum_map_add {α : Type} (f g : α → Nat) (l : List α) :
    (l.map (fun x => f x + g x)).sum = (l.map f).sum + (l.map g).sum := by
  induction l with
  | nil => rfl
  | cons a l ih =>
    simp only [List.map_cons, List.sum_cons, ih]
    omega

theorem countP_eq_sum_map_ite {α : Type} (p : α → Bool) (l : List α) :
    l.countP p = (l.map (fun x => if p x then (1 : Nat) else 0)).sum := by
  induction l with
  | nil => rfl
  | cons a l ih =>
    rw [List.countP_cons, List.map_cons, List.sum_cons, ih]
    omega

theorem sum_countP_comm {α β : Type} (p : α → β → Bool) (as : List α) (bs : List β) :
    (as.map (fun a => bs.countP (p a))).sum =
      (bs.map (fun b => as.countP (fun a => p a b))).sum := by
  induction as with
  | nil =>
    simp [List.countP_nil]
  | cons a as ih =>
    simp only [List.map_cons, List.sum_cons, List.countP_cons]
    rw [sum_map_add (fun b => as.countP (fun a' => p a' b)) (fun b => if p a b then 1 else 0) bs,
      ← ih, ← countP_eq_sum_map_ite]
    omega

theorem countP_add_countP_not {α : Type} (p : α → Bool) (l : List α) :
    l.countP p + l.countP (fun a => !p a) = l.length := by
  induction l with
  | nil => rfl
  | cons a l ih =>
    rw [List.countP_cons, List.countP_cons]
    by_cases h : p a = true <;> simp [h] <;> omega

theorem one_le_leftBlock_length (l r : DataFrame) (lr : List Cell) :
    1 ≤ (leftBlock l r lr).length := by
  rw [leftBlock]
  split_ifs with h
  · simp
  · rw [List.length_map]
    exact List.length_pos.mpr h

theorem matches_le_leftBlock_length (l r : DataFrame) (lr : List Cell) :
    (matchesOf l r lr).length ≤ (leftBlock l r lr).length := by
  rw [leftBlock]
  split_ifs with h
  · simp [h]
  · rw [List.length_map]

theorem left_rows_le_flat (l r : DataFrame) :
    l.rows.length ≤ (l.rows.flatMap (leftBlock l r)).length := by
  rw [List.length_flatMap]
  calc l.rows.length = (l.rows.map (fun _ => (1 : Nat))).sum := (sum_map_one _).symm
    _ ≤ (l.rows.map (List.length ∘ leftBlock l r)).sum :=
        List.sum_le_sum (fun lr _ => one_le_leftBlock_length l r lr)

theorem right_rows_le_join (l r : DataFrame) :
    r.rows.length ≤ (outerJoin l r).rows.length := by
  show r.rows.length ≤ (l.rows.flatMap (leftBlock l r) ++ rightOnlyRows l r).length
  rw [List.length_append, List.length_flatMap]
  have hro : (rightOnlyRows l r).length =
      r.rows.countP (fun rr =>
        !decide (keyAt (keyIdx r) rr ∈ l.rows.map (keyAt (keyIdx l)))) := by
    rw [rightOnlyRows, List.length_map, ← List.countP_eq_length_filter]
    simp only [decide_not]
  have hmatch : r.rows.countP
      (fun rr => decide (keyAt (keyIdx r) rr ∈ l.rows.map (keyAt (keyIdx l)))) ≤
      (l.rows.map (List.length ∘ leftBlock l r)).sum := by
    have h1 : r.rows.countP
        (fun rr => decide (keyAt (keyIdx r) rr ∈ l.rows.map (keyAt (keyIdx l)))) ≤
        (r.rows.map (fun rr => l.rows.countP
          (fun lr => decide (keyAt (keyIdx r) rr = keyAt (keyIdx l) lr)))).sum := by
      rw [countP_eq_sum_map_ite]
      refine List.sum_le_sum ?_
      intro rr _
      by_cases h : keyAt (keyIdx r) rr ∈ l.rows.map (keyAt (keyIdx l))
      · rcases List.mem_map.mp h with ⟨lr, hlr, heq⟩
        have hpos : 0 < l.rows.countP
            (fun lr => decide (keyAt (keyIdx r) rr = keyAt (keyIdx l) lr)) :=
          List.countP_pos_iff.mpr ⟨lr, hlr, decide_eq_true heq.symm⟩
        simpa [h] using hpos
      · simp [h]
    have h2 : (r.rows.map (fun rr => l.rows.countP
        (fun lr => decide (keyAt (keyIdx r) rr = keyAt (keyIdx l) lr)))).sum =
        (l.rows.map (fun lr => r.rows.countP
          (fun rr => decide (keyAt (keyIdx r) rr = keyAt (keyIdx l) lr)))).sum :=
      (sum_countP_comm (fun lr rr => decide (keyAt (keyIdx r) rr = keyAt (keyIdx l) lr))
        l.rows r.rows).symm
    have h3 : (l.rows.map (fun lr => r.rows.countP
        (fun rr => decide (keyAt (keyIdx r) rr = keyAt (keyIdx l) lr)))).sum ≤
        (l.rows.map (List.length ∘ leftBlock l r)).sum := by
      refine List.sum_le_sum ?_
      intro lr _
      calc r.rows.countP (fun rr => decide (keyAt (keyIdx r) rr = keyAt (keyIdx l) lr))
          = (matchesOf l r lr).length := by
            rw [matchesOf, List.countP_eq_length_filter]
        _ ≤ (leftBlock l r lr).length := matches_le_leftBlock_length l r lr
    omega
  have hsplit := countP_add_countP_not
    (fun rr => decide (keyAt (keyIdx r) rr ∈ l.rows.map (keyAt (keyIdx l)))) r.rows
  omega

theorem matchesOf_length_eq_one {l r : DataFrame} {lr : List Cell}
    (hnr : (r.rows.map (keyAt (keyIdx r))).Nodup)
    (hmem : keyAt (keyIdx l) lr ∈ r.rows.map (keyAt (keyIdx r))) :
    (matchesOf l r lr).length = 1 := by
  have hc : (r.rows.map (keyAt (keyIdx r))).count (keyAt (keyIdx l) lr) = 1 := by
    have h1 : 0 < (r.rows.map (keyAt (keyIdx r))).count (keyAt (keyIdx l) lr) :=
      List.count_pos_iff.mpr hmem
    have h2 := (List.nodup_iff_count_le_one.mp hnr) (keyAt (keyIdx l) lr)
    omega
  calc (matchesOf l r lr).length
      = r.rows.countP (fun rr => decide (keyAt (keyIdx r) rr = keyAt (keyIdx l) lr)) := by
        rw [matchesOf, List.countP_eq_length_filter]
    _ = (r.rows.map (keyAt (keyIdx r))).countP
          (fun k => decide (k = keyAt (keyIdx l) lr)) :=
        (List.countP_map (fun k => decide (k = keyAt (keyIdx l) lr))
          (keyAt (keyIdx r)) r.rows).symm
    _ = (r.rows.map (keyAt (keyIdx r))).count (keyAt (keyIdx l) lr) := rfl
    _ = 1 := hc

theorem flat_length_eq {l r : DataFrame}
    (hnr : (r.rows.map (keyAt (keyIdx r))).Nodup)
    (hsub : ∀ k ∈ l.rows.map (keyAt (keyIdx l)), k ∈ r.rows.map (keyAt (keyIdx r))) :
    (l.rows.flatMap (leftBlock l r)).length = l.rows.length := by
  rw [List.length_flatMap]
  have hone : ∀ lr ∈ l.rows, (List.length ∘ leftBlock l r) lr = (fun _ => (1 : Nat)) lr := by
    intro lr hlr
    have hm : keyAt (keyIdx l) lr ∈ r.rows.map (keyAt (keyIdx r)) :=
      hsub _ (List.mem_map.mpr ⟨lr, hlr, rfl⟩)
    have h1 := matchesOf_length_eq_one hnr hm
    have hne : matchesOf l r lr ≠ [] := by
      intro h
      rw [h] at h1
      simp at h1
    show (leftBlock l r lr).length = 1
    rw [leftBlock, if_neg hne, List.length_map, h1]
  rw [List.map_congr_left hone, sum_map_one]

theorem countP_mem_eq_length {lk rk : List Cell} (hnl : lk.Nodup) (hnr : rk.Nodup)
    (hsub : ∀ k ∈ lk, k ∈ rk) :
    rk.countP (fun k => decide (k ∈ lk)) = lk.length := by
  rw [List.countP_eq_length_filter]
  have hnf : (rk.filter (fun k => decide (k ∈ lk))).Nodup :=
    List.Nodup.sublist (List.filter_sublist rk) hnr
  have hmemiff : ∀ x : Cell, x ∈ rk.filter (fun k => decide (k ∈ lk)) ↔ x ∈ lk := by
    intro x
    rw [List.mem_filter]
    constructor
    · exact fun h => of_decide_eq_true h.2
    · exact fun h => ⟨hsub x h, decide_eq_true h⟩
  have hfin : (rk.filter (fun k => decide (k ∈ lk))).toFinset = lk.toFinset := by
    refine Finset.ext ?_
    intro x
    rw [List.mem_toFinset, List.mem_toFinset, hmemiff]
  calc (rk.filter (fun k => decide (k ∈ lk))).length
      = (rk.filter (fun k => decide (k ∈ lk))).toFinset.card :=
        (List.toFinset_card_of_nodup hnf).symm
    _ = lk.toFinset.card := by rw [hfin]
    _ = lk.length := List.toFinset_card_of_nodup hnl

theorem rightOnly_length_eq {l r : DataFrame}
    (hnl : (l.rows.map (keyAt (keyIdx l))).Nodup)
    (hnr : (r.rows.map (keyAt (keyIdx r))).Nodup)
    (hsub : ∀ k ∈ l.rows.map (keyAt (keyIdx l)), k ∈ r.rows.map (keyAt (keyIdx r))) :
    (rightOnlyRows l r).length = r.rows.length - l.rows.length := by
  have hro : (rightOnlyRows l r).length =
      r.rows.countP (fun rr =>
        !decide (keyAt (keyIdx r) rr ∈ l.rows.map (keyAt (keyIdx l)))) := by
    rw [rightOnlyRows, List.length_map, ← List.countP_eq_length_filter]
    simp only [decide_not]
  have hcm : r.rows.countP
      (fun rr => decide (keyAt (keyIdx r) rr ∈ l.rows.map (keyAt (keyIdx l)))) =
      (l.rows.map (keyAt (keyIdx l))).length := by
    have hstep : r.rows.countP
        (fun rr => decide (keyAt (keyIdx r) rr ∈ l.rows.map (keyAt (keyIdx l)))) =
        (r.rows.map (keyAt (keyIdx r))).countP
          (fun k => decide (k ∈ l.rows.map (keyAt (keyIdx l)))) :=
      (List.countP_map (fun k => decide (k ∈ l.rows.map (keyAt (keyIdx l))))
        (keyAt (keyIdx r)) r.rows).symm
    rw [hstep]
    exact countP_mem_eq_length hnl hnr hsub
  have hsplit := countP_add_countP_not
    (fun rr => decide (keyAt (keyIdx r) rr ∈ l.rows.map (keyAt (keyIdx l)))) r.rows
  rw [hro]
  rw [hcm] at hsplit
  rw [List.length_map] at hsplit
  omega

theorem keyAt_append_left {i : Nat} {row xs : List Cell} (h : i < row.length) :
    keyAt i (row ++ xs) = keyAt i row := by
  rw [keyAt, keyAt, List.getElem?_append, if_pos h]

/-! ### C6 — row count of the outer join -/

/-- C6 counterexample: for `L` with the single key `A` and `R` with the
single key `B` (no key repeats on either side) the outer join has 2 rows,
but `max(distinct keys of L, distinct keys of R) = max 1 1 = 1`: the
claimed equality under "no key repeats" fails when the key sets differ. -/
theorem C6_counterexample :
    ((DataFrame.mk ["comum"] [[Cell.str "A"]]).rows.map
      (keyAt (keyIdx ⟨["comum"], [[Cell.str "A"]]⟩))).Nodup ∧
    ((DataFrame.mk ["comum"] [[Cell.str "B"]]).rows.map
      (keyAt (keyIdx ⟨["comum"], [[Cell.str "B"]]⟩))).Nodup ∧
    distinctKeyCount ⟨["comum"], [[Cell.str "A"]]⟩ = 1 ∧
    distinctKeyCount ⟨["comum"], [[Cell.str "B"]]⟩ = 1 ∧
    (outerJoin ⟨["comum"], [[Cell.str "A"]]⟩ ⟨["comum"], [[Cell.str "B"]]⟩).rows.length = 2 ∧
    (2 : Nat) ≠ max 1 1 := by
  refine ⟨by decide, by decide, by decide, by decide, by decide, by decide⟩

/-- C6 (amended): the outer join's row count is always at least
`max(distinct keys of L, distinct keys of R)`, with equality when no key
value repeats within either side *and* every key of `L` also occurs in
`R` (the situation the pipeline guarantees, both sides being filtered to
the secondary's key set); and every key occurring in `L` or `R` appears
in the result at least once (at the shared key position). -/
theorem C6_join_row_count (l r : DataFrame) (hwfl : l.WF) (hl : "comum" ∈ l.cols) :
    max (distinctKeyCount l) (distinctKeyCount r) ≤ (outerJoin l r).rows.length ∧
    ((l.rows.map (keyAt (keyIdx l))).Nodup → (r.rows.map (keyAt (keyIdx r))).Nodup →
      (∀ k ∈ l.rows.map (keyAt (keyIdx l)), k ∈ r.rows.map (keyAt (keyIdx r))) →
      (outerJoin l r).rows.length = max (distinctKeyCount l) (distinctKeyCount r)) ∧
    (∀ k : Cell,
      k ∈ l.rows.map (keyAt (keyIdx l)) ∨ k ∈ r.rows.map (keyAt (keyIdx r)) →
      ∃ row ∈ (outerJoin l r).rows, keyAt (keyIdx l) row = k) := by
  have hli : keyIdx l < l.cols.length := List.indexOf_lt_length.mpr hl
  have hjlen : (outerJoin l r).rows.length =
      (l.rows.flatMap (leftBlock l r)).length + (rightOnlyRows l r).length := by
    show (l.rows.flatMap (leftBlock l r) ++ rightOnlyRows l r).length = _
    rw [List.length_append]
  refine ⟨?_, ?_, ?_⟩
  · have hdl : distinctKeyCount l ≤ l.rows.length := by
      rw [distinctKeyCount]
      calc ((l.rows.map (keyAt (keyIdx l))).dedup).length
          ≤ (l.rows.map (keyAt (keyIdx l))).length := (List.dedup_sublist _).length_le
        _ = l.rows.length := List.length_map _ _
    have hdr : distinctKeyCount r ≤ r.rows.length := by
      rw [distinctKeyCount]
      calc ((r.rows.map (keyAt (keyIdx r))).dedup).length
          ≤ (r.rows.map (keyAt (keyIdx r))).length := (List.dedup_sublist _).length_le
        _ = r.rows.length := List.length_map _ _
    have h1 : l.rows.length ≤ (outerJoin l r).rows.length := by
      have := left_rows_le_flat l r
      omega
    have h2 := right_rows_le_join l r
    exact max_le (le_trans hdl h1) (le_trans hdr h2)
  · intro hnl hnr hsub
    have hflat := flat_length_eq hnr hsub
    have hro := rightOnly_length_eq hnl hnr hsub
    have hlk : (l.rows.map (keyAt (keyIdx l))).length = l.rows.length := List.length_map _ _
    have hrk : (r.rows.map (keyAt (keyIdx r))).length = r.rows.length := List.length_map _ _
    have hle : l.rows.length ≤ r.rows.length := by
      have h := countP_mem_eq_length hnl hnr hsub
      have h2 := List.countP_le_length
        (fun k => decide (k ∈ l.rows.map (keyAt (keyIdx l))))
        (l := r.rows.map (keyAt (keyIdx r)))
      omega
    have hdl : distinctKeyCount l = l.rows.length := by
      rw [distinctKeyCount, List.dedup_eq_self.mpr hnl, hlk]
    have hdr : distinctKeyCount r = r.rows.length := by
      rw [distinctKeyCount, List.dedup_eq_self.mpr hnr, hrk]
    rw [hjlen, hflat, hro, hdl, hdr, Nat.max_eq_right hle]
    omega
  · have hleft : ∀ k ∈ l.rows.map (keyAt (keyIdx l)),
        ∃ row ∈ (outerJoin l r).rows, keyAt (keyIdx l) row = k := by
      intro k hk
      rcases List.mem_map.mp hk with ⟨lr, hlr, rfl⟩
      have hlen : keyIdx l < lr.length := by
        rw [hwfl lr hlr]
        exact hli
      obtain ⟨row, hrowblock, hkey⟩ :
          ∃ row ∈ leftBlock l r lr, keyAt (keyIdx l) row = keyAt (keyIdx l) lr := by
        rw [leftBlock]
        split_ifs with hms
        · exact ⟨lr ++ List.replicate (rKeptCols r).length Cell.null,
            List.mem_singleton.mpr rfl, keyAt_append_left hlen⟩
        · rcases List.exists_mem_of_ne_nil _ hms with ⟨rr, hrrm⟩
          exact ⟨lr ++ rr.eraseIdx (keyIdx r), List.mem_map.mpr ⟨rr, hrrm, rfl⟩,
            keyAt_append_left hlen⟩
      exact ⟨row,
        List.mem_append.mpr (Or.inl (List.mem_flatMap.mpr ⟨lr, hlr, hrowblock⟩)), hkey⟩
    intro k hk
    rcases hk with hkl | hkr
    · exact hleft k hkl
    · by_cases hkin : k ∈ l.rows.map (keyAt (keyIdx l))
      · exact hleft k hkin
      · rcases List.mem_map.mp hkr with ⟨rr, hrr, rfl⟩
        refine ⟨(List.range l.cols.length).map
            (fun j => if j = keyIdx l then keyAt (keyIdx r) rr else Cell.null)
          ++ rr.eraseIdx (keyIdx r), ?_, ?_⟩
        · exact List.mem_append.mpr (Or.inr (List.mem_map.mpr
            ⟨rr, List.mem_filter.mpr ⟨hrr, decide_eq_true hkin⟩, rfl⟩))
        · rw [keyAt_append_left (by rw [List.length_map, List.length_range]; exact hli)]
          rw [keyAt, List.getElem?_map, List.getElem?_range hli]
          simp

/-- Witness for C6: single-row frames with keys `A` on the left and
`A`, `B` on the right. -/
theorem C6_witness :
    ((DataFrame.mk ["comum"] [[Cell.str "A"]]).WF ∧
      "comum" ∈ (DataFrame.mk ["comum"] [[Cell.str "A"]]).cols) ∧
    (max (distinctKeyCount ⟨["comum"], [[Cell.str "A"]]⟩)
        (distinctKeyCount ⟨["comum"], [[Cell.str "A"], [Cell.str "B"]]⟩) ≤
      (outerJoin ⟨["comum"], [[Cell.str "A"]]⟩
        ⟨["comum"], [[Cell.str "A"], [Cell.str "B"]]⟩).rows.length) ∧
    (((DataFrame.mk ["comum"] [[Cell.str "A"]]).rows.map
        (keyAt (keyIdx ⟨["comum"], [[Cell.str "A"]]⟩))).Nodup →
      ((DataFrame.mk ["comum"] [[Cell.str "A"], [Cell.str "B"]]).rows.map
        (keyAt (keyIdx ⟨["comum"], [[Cell.str "A"], [Cell.str "B"]]⟩))).Nodup →
      (∀ k ∈ (DataFrame.mk ["comum"] [[Cell.str "A"]]).rows.map
          (keyAt (keyIdx ⟨["comum"], [[Cell.str "A"]]⟩)),
        k ∈ (DataFrame.mk ["comum"] [[Cell.str "A"], [Cell.str "B"]]).rows.map
          (keyAt (keyIdx ⟨["comum"], [[Cell.str "A"], [Cell.str "B"]]⟩))) →
      (outerJoin ⟨["comum"], [[Cell.str "A"]]⟩
        ⟨["comum"], [[Cell.str "A"], [Cell.str "B"]]⟩).rows.length =
        max (distinctKeyCount ⟨["comum"], [[Cell.str "A"]]⟩)
          (distinctKeyCount ⟨["comum"], [[Cell.str "A"], [Cell.str "B"]]⟩)) := by
  have hwf : (DataFrame.mk ["comum"] [[Cell.str "A"]]).WF := by
    intro x hx
    simp only [List.mem_singleton] at hx
    subst hx
    rfl
  have h := C6_join_row_count ⟨["comum"], [[Cell.str "A"]]⟩
    ⟨["comum"], [[Cell.str "A"], [Cell.str "B"]]⟩ hwf (by decide)
  exact ⟨⟨hwf, by decide⟩, h.1, h.2.1⟩

example : normalizeStr " porto " = "PORTO" := by decide

example : normalizeCell Cell.null = Cell.str "NAN" := by decide

example :
    normalize ⟨["City", "Pop"], [[.str "Lisbon", .num 500], [.str " porto ", .num 200]]⟩ "City" =
      .ok ⟨["comum", "Pop"], [[.str "LISBON", .num 500], [.str "PORTO", .num 200]]⟩ := by
  rfl

end App
